import Mathlib

/-!
Verification development for the D0T automation suite: a shallow embedding of
the action-decision core (ghost-mode `decide`), the smart autonomous
controller (`smart-auto.js`), and the coordination gateway (session
persistence, `clickOn`, `see`, and the priority task queue), together with
theorems settling the specified behavioural properties.

External effectful collaborators (screen capture, OCR, input injection,
websockets, the filesystem) are abstracted: recognition results enter the
embedded functions as explicit arguments, clock reads as explicit `now`
parameters, and the persisted JSON session as an explicit record value.
-/

/-! ## Generic list helpers

JavaScript `Array.prototype.sort` with a numeric comparator is a *stable*
sort (ES2019).  `stableSortBy lt` is a stable insertion sort where
`lt a b = true` means `a` strictly precedes `b`; elements that are
equivalent under the comparator keep their original relative order. -/

def insertSorted {α : Type} (lt : α → α → Bool) (x : α) : List α → List α
  | [] => [x]
  | y :: ys => if lt y x then y :: insertSorted lt x ys else x :: y :: ys

def stableSortBy {α : Type} (lt : α → α → Bool) : List α → List α
  | [] => []
  | x :: xs => insertSorted lt x (stableSortBy lt xs)

/-- Insertion of a latest-arrived element: it goes *after* every element it
does not strictly precede, which is where a stable sort puts the last element
of the input. -/
def insertLast {α : Type} (lt : α → α → Bool) (t : α) : List α → List α
  | [] => [t]
  | y :: ys => if lt t y then t :: y :: ys else y :: insertLast lt t ys

/-- String-keyed association list standing in for a JavaScript object:
lookup of the binding for key `k`. -/
def getA {β : Type} (m : List (String × β)) (k : String) : Option β :=
  (m.find? (fun p => p.1 == k)).map (fun p => p.2)

/-- JavaScript object assignment `m[k] = v`: replace the binding in place if
the key exists, otherwise append it (objects preserve insertion order). -/
def setA {β : Type} (m : List (String × β)) (k : String) (v : β) : List (String × β) :=
  if m.any (fun p => p.1 == k) then
    m.map (fun p => if p.1 == k then (k, v) else p)
  else
    m ++ [(k, v)]

/-- JavaScript `String.prototype.toLowerCase()` on the ASCII strings handled
here, written over the character list so that it reduces in the kernel. -/
def jsToLower (s : String) : String := String.mk (s.data.map Char.toLower)

/-- A screen point as returned by `agent.find` (only `x`/`y` are consumed by
the callers modelled here). -/
structure Pt where
  x : Int
  y : Int
deriving DecidableEq, Repr

/-! ## Ghost mode decision engine (`decide` in the ghost-mode source)

The OCR adapter is abstracted: `decide` consumes the recognized word list of
one cycle.  Floats only ever hold integral confidences at the decision
boundaries used (`> 50`, `> 90`), so confidence is embedded as `Nat`;
coordinates are `Int` milliseconds/pixels exactly as the JS numbers. -/

namespace Ghost

/-- One recognized token `{text, x, y, confidence}` of the current cycle. -/
structure Word where
  text : String
  x : Int
  y : Int
  confidence : Nat
deriving DecidableEq, Repr

/-- A candidate button produced by `findButtons`. -/
structure Button where
  text : String
  matched : String
  x : Int
  y : Int
  confidence : Nat
deriving DecidableEq, Repr

/-- The ghost-mode `CONFIG` object (decision-relevant fields). -/
structure GhostConfig where
  pollInterval : Nat
  watchPatterns : List String
  confirmScans : Nat
  maxActionsPerMinute : Nat
  noActionTimeout : Nat
deriving Repr

/-- The concrete `CONFIG` of the source. -/
def CONFIG : GhostConfig :=
  { pollInterval := 5000
    watchPatterns := ["Continue", "Keep", "Allow", "Proceed", "Yes", "Run", "OK"]
    confirmScans := 2
    maxActionsPerMinute := 10
    noActionTimeout := 15000 }

/-- The decision-relevant mutable `state` of ghost mode. -/
structure GhostState where
  actionsThisMinute : Nat
  lastClickedButton : Option String
  lastClickedPos : Option (Int × Int)
  sameButtonCount : Nat
  pendingButton : Option String
  pendingCount : Nat
deriving DecidableEq, Repr

/-- The initial ghost `state`. -/
def initialState : GhostState :=
  { actionsThisMinute := 0
    lastClickedButton := none
    lastClickedPos := none
    sameButtonCount := 0
    pendingButton := none
    pendingCount := 0 }

/-- The regex test `new RegExp("^\"?" + pattern + "\"?[,.]?$", "i").test(text)`:
the word is the pattern, case-insensitively, optionally wrapped in straight
quotes and optionally followed by a comma or period. -/
def regexTest (pattern text : String) : Bool :=
  let p := jsToLower pattern
  let t := jsToLower text
  (["", "\""] : List String).any (fun q1 =>
    (["", "\""] : List String).any (fun q2 =>
      (["", ",", "."] : List String).any (fun tail =>
        t == q1 ++ p ++ q2 ++ tail)))

/-- `findButtons(words)`: for each watch pattern (pattern-major order) collect
words that match the pattern regex with confidence above 50, then stable-sort
by confidence descending (comparator `(a, b) => b.confidence - a.confidence`). -/
def findButtons (cfg : GhostConfig) (words : List Word) : List Button :=
  let found := cfg.watchPatterns.foldl (fun acc pattern =>
    acc ++ (words.filter (fun w => regexTest pattern w.text && 50 < w.confidence)).map
      (fun w => { text := pattern, matched := w.text, x := w.x, y := w.y,
                  confidence := w.confidence })) []
  stableSortBy (fun a b => b.confidence < a.confidence) found

/-- `Math.round(v / 50)` on an integral JS number `v`:
`floor(v/50 + 1/2) = fdiv (2*v + 50) 100`. -/
def round50 (v : Int) : Int := Int.fdiv (2 * v + 50) 100

/-- The confirmation key: `` `${text}@${Math.round(x/50)}x${Math.round(y/50)}` ``. -/
def buttonKey (b : Button) : String :=
  s!"{b.text}@{round50 b.x}x{round50 b.y}"

/-- The smart-priority order used by `decide`. -/
def priorityOrder : List String := ["Allow", "Yes", "OK", "Keep", "Proceed", "Run", "Continue"]

/-- `priorityOrder.indexOf(text)` (−1 when absent, as in JS). -/
def priIdx (b : Button) : Int :=
  match priorityOrder.findIdx? (fun s => s == b.text) with
  | some i => (i : Int)
  | none => -1

/-- The stuck-button override scan: first index whose text differs from the
most recently clicked button (`!==` against a possibly-null string); the
index stays 0 when no such button exists. -/
def pickIndex (last : Option String) (bs : List Button) : Nat :=
  match bs.findIdx? (fun b => !(some b.text == last)) with
  | some i => i
  | none => 0

/-- Confirmation-debounce update: same key increments `pendingCount`, a
different key replaces the pending record with a fresh one. -/
def updatePending (st : GhostState) (key : String) : GhostState :=
  if st.pendingButton = some key then
    { st with pendingCount := st.pendingCount + 1 }
  else
    { st with pendingButton := some key, pendingCount := 1 }

/-- A decision returned by `decide`. -/
inductive DAction where
  | wait (reason : String)
  | click (x y : Int) (reason : String)
deriving DecidableEq, Repr

/-- The tail of `decide` once the best candidate is picked: confirmation
debounce against the pending key, and on promotion the commit that resets the
pending record and tracks the clicked button. -/
def commitStage (cfg : GhostConfig) (st : GhostState) (best : Button) :
    DAction × GhostState :=
  let key := buttonKey best
  let st1 := updatePending st key
  if st1.pendingCount < cfg.confirmScans then
    (.wait "Confirming button is real", st1)
  else
    let st2 := { st1 with pendingButton := none, pendingCount := 0 }
    let st3 :=
      if st2.lastClickedButton = some best.text then
        { st2 with sameButtonCount := st2.sameButtonCount + 1 }
      else
        { st2 with sameButtonCount := 1, lastClickedButton := some best.text }
    let st4 := { st3 with lastClickedPos := some (best.x, best.y) }
    (.click best.x best.y s!"Confirmed: \"{best.matched}\"", st4)

/-- The tail of `decide` once a nonempty region-filtered button list `bs` is
chosen: priority sort, stuck-button override, then `commitStage` on the
picked candidate. -/
def confirmStage (cfg : GhostConfig) (st : GhostState) (bs : List Button) :
    DAction × GhostState :=
  let sorted := stableSortBy (fun a b => priIdx a < priIdx b) bs
  let candidateIndex :=
    if 2 ≤ st.sameButtonCount && 1 < sorted.length then
      pickIndex st.lastClickedButton sorted
    else 0
  commitStage cfg st (sorted.getD candidateIndex ⟨"", "", 0, 0, 0⟩)

/-- The ghost-mode `decide(ocrResult)` step, embedded over the word list of
one cycle and the mutable state it reads and writes. -/
def decide (cfg : GhostConfig) (st : GhostState) (words : List Word) :
    DAction × GhostState :=
  let buttons := findButtons cfg words
  if cfg.maxActionsPerMinute ≤ st.actionsThisMinute then
    (.wait "Rate limited", st)
  else if buttons.isEmpty then
    (.wait "No buttons found", st)
  else
    let bottomRight := buttons.filter (fun b => 1200 < b.x && 500 < b.y)
    let chosen :=
      if !bottomRight.isEmpty then some bottomRight
      else
        let dialogButtons := buttons.filter (fun b =>
          (["Allow", "Yes", "OK", "Keep"] : List String).contains b.text &&
          90 < b.confidence && 350 < b.y && b.y < 650 && 400 < b.x && b.x < 900)
        if !dialogButtons.isEmpty then some dialogButtons else none
    match chosen with
    | none => (.wait "No buttons in chat panel or dialogs", st)
    | some bs => confirmStage cfg st bs

/-- One `ghostLoop` cycle after OCR: run `decide` and, on a click decision,
perform the click (which on success bumps `actionsThisMinute`). -/
def ghostStep (cfg : GhostConfig) (st : GhostState) (words : List Word) :
    DAction × GhostState :=
  match decide cfg st words with
  | (.click x y r, st1) =>
      (.click x y r, { st1 with actionsThisMinute := st1.actionsThisMinute + 1 })
  | (a, st1) => (a, st1)

/-- Run consecutive ghost cycles over a list of per-cycle word lists,
returning the decision of every cycle and the final state. -/
def runGhost (cfg : GhostConfig) (st : GhostState) :
    List (List Word) → List DAction × GhostState
  | [] => ([], st)
  | ws :: rest =>
    let p := ghostStep cfg st ws
    let q := runGhost cfg p.2 rest
    (p.1 :: q.1, q.2)

end Ghost

/-! ## Smart autonomous controller (`smart-auto.js`)

`agent.see`/`agent.find` are the external recognition dependency; one scan
cycle consumes a function `find : String → List Pt` giving, per watched
button, the matches of the freshly captured frame.  All timestamps are JS
epoch milliseconds passed in as `now`. -/

namespace Smart

/-- One entry of `state.recentClicks`. -/
structure RecentClick where
  x : Int
  y : Int
  time : Int
  button : String
deriving DecidableEq, Repr

/-- One learned position `{x, y, lastSeen}`. -/
structure LearnedPos where
  x : Int
  y : Int
  lastSeen : Int
deriving DecidableEq, Repr

/-- The smart controller `CONFIG` (decision-relevant fields). -/
structure SmartConfig where
  pollInterval : Nat
  buttons : List String
  buttonCooldown : Int
  loopThreshold : Nat
  useLearnedFirst : Bool
deriving Repr

/-- The concrete `CONFIG` of `smart-auto.js`. -/
def CONFIG : SmartConfig :=
  { pollInterval := 3000
    buttons := ["Allow", "Continue", "Keep", "Yes", "OK", "Run", "Proceed", "Accept"]
    buttonCooldown := 10000
    loopThreshold := 3
    useLearnedFirst := true }

/-- The decision-relevant mutable `state` of the smart controller. -/
structure SmartState where
  lastClickTime : List (String × Int)
  recentClicks : List RecentClick
  learned : List (String × LearnedPos)
  totalClicks : Nat
  loopsAvoided : Nat
deriving DecidableEq, Repr

/-- `isOnCooldown(button)`: a falsy missing entry is never on cooldown;
otherwise the last click must be at least `buttonCooldown` ms old. -/
def isOnCooldown (now : Int) (st : SmartState) (button : String) : Bool :=
  match getA st.lastClickTime button with
  | none => false
  | some lastClick => now - lastClick < CONFIG.buttonCooldown

/-- The filter predicate of `isLoopPosition`: a recent click within 50px on
both axes and within the last 30 seconds. -/
def inLoopWindow (now x y : Int) (c : RecentClick) : Bool :=
  (c.x - x).natAbs < 50 && (c.y - y).natAbs < 50 && now - c.time < 30000

/-- `isLoopPosition(x, y)`: at least `loopThreshold` recent clicks near the
candidate position inside the 30-second window. -/
def isLoopPosition (now : Int) (st : SmartState) (x y : Int) : Bool :=
  CONFIG.loopThreshold ≤ (st.recentClicks.filter (inLoopWindow now x y)).length

/-- `recordClick(button, x, y)`: stamp the per-button cooldown, append to the
recent ring (trimmed to the last 10 once it exceeds 20), learn the position,
and count the click. -/
def recordClick (now : Int) (st : SmartState) (button : String) (x y : Int) :
    SmartState :=
  let st1 := { st with
    lastClickTime := setA st.lastClickTime button now
    recentClicks := st.recentClicks ++ [({ x := x, y := y, time := now, button := button } : RecentClick)] }
  let st2 :=
    if 20 < st1.recentClicks.length then
      { st1 with recentClicks := st1.recentClicks.drop (st1.recentClicks.length - 10) }
    else st1
  { st2 with
    learned := setA st2.learned button ⟨x, y, now⟩
    totalClicks := st2.totalClicks + 1 }

/-- The per-button body of the `smartScan` loop: skip on cooldown, skip when
unmatched, skip (counting a loop avoided) on a loop position, otherwise click
the first match, record it, and stop (one click per scan). -/
def scanButtons (now : Int) (find : String → List Pt) :
    List String → SmartState → SmartState × Option (String × Int × Int)
  | [], st => (st, none)
  | b :: bs, st =>
    if isOnCooldown now st b then scanButtons now find bs st
    else
      match find b with
      | [] => scanButtons now find bs st
      | target :: _ =>
        if isLoopPosition now st target.x target.y then
          scanButtons now find bs { st with loopsAvoided := st.loopsAvoided + 1 }
        else
          (recordClick now st b target.x target.y, some (b, target.x, target.y))

/-- One `smartScan` cycle after the OCR `see`, over the watched button list. -/
def smartScan (now : Int) (find : String → List Pt) (st : SmartState) :
    SmartState × Option (String × Int × Int) :=
  scanButtons now find CONFIG.buttons st

/-- The initial smart controller state (fresh state file). -/
def initialState : SmartState :=
  { lastClickTime := [], recentClicks := [], learned := [],
    totalClicks := 0, loopsAvoided := 0 }

end Smart

/-! ## Coordination gateway (session, `clickOn`, `see`)

The gateway `state.session` is the persisted record; `state.stats` lives
beside it and is *not* part of the session.  Wall-clock reads are passed as
`nowMs` (epoch milliseconds) and `nowIso` (ISO timestamp string). -/

namespace Gateway

/-- One learned position `{x, y, seenAt}` in `session.learnedPositions`. -/
structure LearnedEntry where
  x : Int
  y : Int
  seenAt : String
deriving DecidableEq, Repr

/-- The default `session.preferences`. -/
structure Preferences where
  confirmClicks : Bool
  verbose : Bool
deriving DecidableEq, Repr

/-- The persisted `Session` record: exactly the fields the gateway writes to
`session.json`. -/
structure Session where
  id : String
  startedAt : String
  learnedPositions : List (String × LearnedEntry)
  preferences : Preferences
deriving DecidableEq, Repr

/-- The gateway `state.stats` object (reset on every startup). -/
structure Stats where
  totalActions : Nat
  totalClicks : Nat
  totalTypes : Nat
  uptime : Int
deriving DecidableEq, Repr

/-- The decision-relevant gateway `state`: the session and the stats. -/
structure GatewayState where
  session : Session
  stats : Stats
deriving DecidableEq, Repr

/-- The fresh stats built at gateway startup. -/
def initStats (nowMs : Int) : Stats :=
  { totalActions := 0, totalClicks := 0, totalTypes := 0, uptime := nowMs }

/-- The default session constructed by `loadSession` when no persisted record
exists. -/
def defaultSession (nowMs : Int) (nowIso : String) : Session :=
  { id := s!"d0t-{nowMs}"
    startedAt := nowIso
    learnedPositions := []
    preferences := { confirmClicks := false, verbose := true } }

/-- `loadSession()`: the parsed persisted record if present, else the
default.  The JSON round trip on these field types is the identity, so the
persisted record is embedded as the `Session` value itself. -/
def loadSession (stored : Option Session) (nowMs : Int) (nowIso : String) : Session :=
  match stored with
  | some s => s
  | none => defaultSession nowMs nowIso

/-- `saveSession()`: what reaches `session.json` is exactly `state.session`. -/
def saveSession (g : GatewayState) : Session := g.session

/-- Gateway startup: load (or default) the session and build fresh stats. -/
def startupState (stored : Option Session) (nowMs : Int) (nowIso : String) :
    GatewayState :=
  { session := loadSession stored nowMs nowIso, stats := initStats nowMs }

/-- The result sent back by `handleClickOn`. -/
inductive ClickOnResult where
  | success (x y : Int) (usedLearned : Bool)
  | notFound
deriving DecidableEq, Repr

/-- `handleClickOn(ws, {text})` after the `see`: `matches` is the live
recognition result `agent.find(text, options)`.  No live match with a learned
entry clicks the learned coordinates (no relearning); no live match and no
learned entry fails; a live match clicks it and learns the position. -/
def handleClickOn (found : List Pt) (text : String) (g : GatewayState)
    (nowIso : String) : ClickOnResult × GatewayState :=
  let bumpClick := fun (s : Stats) =>
    { s with totalActions := s.totalActions + 1, totalClicks := s.totalClicks + 1 }
  match found with
  | [] =>
    match getA g.session.learnedPositions text with
    | some learned =>
      (.success learned.x learned.y true, { g with stats := bumpClick g.stats })
    | none => (.notFound, g)
  | target :: _ =>
    let learnedPositions1 := setA g.session.learnedPositions text ⟨target.x, target.y, nowIso⟩
    (.success target.x target.y false,
     { session := { g.session with learnedPositions := learnedPositions1 },
       stats := bumpClick g.stats })

/-- The patterns whose sighted positions `handleSee` remembers. -/
def seePatterns : List String := ["Continue", "Keep", "Allow", "Yes", "OK", "Run", "Proceed"]

/-- The remembering loop of `handleSee`, factored over the pattern list. -/
def seeFold (find : String → List Pt) (nowIso : String)
    (ps : List String) (m : List (String × LearnedEntry)) :
    List (String × LearnedEntry) :=
  ps.foldl (fun acc pattern =>
    match find pattern with
    | [] => acc
    | t :: _ => setA acc pattern ⟨t.x, t.y, nowIso⟩) m

/-- `handleSee(ws)`: a pure observation cycle; it nevertheless remembers the
position of every sighted watch pattern into `session.learnedPositions`. -/
def handleSee (find : String → List Pt) (g : GatewayState) (nowIso : String) :
    GatewayState :=
  { g with session := { g.session with
      learnedPositions := seeFold find nowIso seePatterns g.session.learnedPositions } }

end Gateway

/-! ## Gateway task queue (`handleTask` / `processTaskQueue`)

A queued task's action list is embedded outcome-annotated: each entry is the
`Except` result of invoking that step against the shared action executor
(`.ok ()` when the step returns, `.error msg` when it throws).  `handleTask`
pushes then re-sorts the whole queue with the stable comparator
`(a, b) => b.priority - a.priority` and starts processing only when no task
is current; `processTaskQueue` shifts the head, runs it to completion or
first failure, records the terminal status, and advances. -/

instance {ε α : Type} [DecidableEq ε] [DecidableEq α] : DecidableEq (Except ε α) := fun a b =>
  match a, b with
  | .ok x, .ok y =>
    if h : x = y then .isTrue (by rw [h]) else .isFalse (by intro he; cases he; exact h rfl)
  | .error x, .error y =>
    if h : x = y then .isTrue (by rw [h]) else .isFalse (by intro he; cases he; exact h rfl)
  | .ok _, .error _ => .isFalse (by intro he; cases he)
  | .error _, .ok _ => .isFalse (by intro he; cases he)

namespace TaskQueue

/-- Task status values. -/
inductive TStatus where
  | queued
  | running
  | completed
  | failed
deriving DecidableEq, Repr

/-- A gateway task. -/
structure Task where
  name : String
  priority : Int
  actions : List (Except String Unit)
  status : TStatus
  error : Option String
deriving DecidableEq, Repr

/-- The queue comparator `(a, b) => b.priority - a.priority`: `a` strictly
precedes `b` exactly when `a.priority > b.priority`. -/
def taskLt (a b : Task) : Bool := b.priority < a.priority

/-- `agent.execute(actions)` with the invocation trace: runs the steps in
order, stopping at the first throw; returns how many steps were invoked and
the captured error message, if any. -/
def executeTrace : List (Except String Unit) → Nat × Option String
  | [] => (0, none)
  | .ok () :: rest =>
    let p := executeTrace rest
    (p.1 + 1, p.2)
  | .error e :: _ => (1, some e)

/-- The terminal version of a task after `processTaskQueue` ran its actions:
`completed` on success, `failed` with the captured message on a throw. -/
def terminalize (t : Task) : Task :=
  match (executeTrace t.actions).2 with
  | none => { t with status := .completed }
  | some e => { t with status := .failed, error := some e }

/-- `handleTask` stamps new tasks `queued`. -/
def markQueued (t : Task) : Task := { t with status := .queued }

/-- `processTaskQueue` stamps the shifted task `running`. -/
def markRunning (t : Task) : Task := { t with status := .running }

/-- The queue-relevant gateway state: the sorted queue, the single current
task slot, and the trace of tasks that reached a terminal status, in the
order their `taskCompleted` broadcasts were sent. -/
structure QState where
  taskQueue : List Task
  currentTask : Option Task
  executed : List Task
deriving DecidableEq, Repr

/-- The entry of `processTaskQueue`: an empty queue clears the current slot,
otherwise the head is shifted out and becomes the running task. -/
def startNext (st : QState) : QState :=
  match st.taskQueue with
  | [] => { st with currentTask := none }
  | t :: rest => { st with taskQueue := rest, currentTask := some (markRunning t) }

/-- `handleTask`: push the queued task, stable-sort by descending priority,
and start processing only when no task is currently running (the current
slot is set synchronously by `processTaskQueue`, so a task enqueued into an
idle queue starts at once). -/
def enqueueTask (st : QState) (t : Task) : QState :=
  let q := stableSortBy taskLt (st.taskQueue ++ [markQueued t])
  match st.currentTask with
  | some _ => { st with taskQueue := q }
  | none => startNext { st with taskQueue := q }

/-- Completion of the current task's `agent.execute` call plus the chained
`processTaskQueue` advance: record the terminal status (the thrown message is
captured into `task.error`; the gateway survives the throw) and start the
next queued task. -/
def finishCurrent (st : QState) : QState :=
  match st.currentTask with
  | none => st
  | some t => startNext { st with executed := st.executed ++ [terminalize t] }

/-- Client-visible queue events: a `task` message, or the current task's
execution running to its end. -/
inductive QEvent where
  | enq (t : Task)
  | finish
deriving Repr

/-- One queue transition. -/
def qstep (st : QState) : QEvent → QState
  | .enq t => enqueueTask st t
  | .finish => finishCurrent st

/-- Run a sequence of queue events. -/
def runQ (st : QState) (evs : List QEvent) : QState := evs.foldl qstep st

/-- The gateway's initial queue state. -/
def initQ : QState := { taskQueue := [], currentTask := none, executed := [] }

/-- Number of tasks in `running` status across the whole queue state. -/
def runningCount (st : QState) : Nat :=
  (st.taskQueue.filter (fun t => t.status == TStatus.running)).length +
  (match st.currentTask with
   | some t => if t.status == TStatus.running then 1 else 0
   | none => 0) +
  (st.executed.filter (fun t => t.status == TStatus.running)).length

/-- The status discipline the queue maintains: everything queued is `queued`,
the current slot (when occupied) is `running`, and archived tasks are
terminal. -/
def QInv (st : QState) : Prop :=
  (∀ t ∈ st.taskQueue, t.status = TStatus.queued) ∧
  (∀ t, st.currentTask = some t → t.status = TStatus.running) ∧
  (∀ t ∈ st.executed, t.status = TStatus.completed ∨ t.status = TStatus.failed)

end TaskQueue

/-! ## Concrete fixtures used in witnesses and counterexamples -/

/-- The stable Candidate of the spec's debounce example. -/
def continueWord : Ghost.Word := ⟨"Continue", 1300, 700, 95⟩

/-- A ghost state holding a pending confirmation with one sighting. -/
def ghostPendingEx : Ghost.GhostState :=
  { Ghost.initialState with pendingButton := some "Continue@26x14", pendingCount := 1 }

/-- A ghost state with 10 actions in the rate window and a pending
confirmation with one sighting. -/
def ghostRateEx : Ghost.GhostState :=
  { ghostPendingEx with actionsThisMinute := 10 }

/-- The same state after the rolling window dropped one action. -/
def ghostRolledEx : Ghost.GhostState :=
  { ghostPendingEx with actionsThisMinute := 9 }

/-- A smart-controller state with three recent clicks recorded at
(1300, 700) at times 0, 1000 and 2000 ms. -/
def smartLoopEx : Smart.SmartState :=
  { Smart.initialState with recentClicks :=
      [⟨1300, 700, 0, "Allow"⟩, ⟨1300, 700, 1000, "Allow"⟩, ⟨1300, 700, 2000, "Allow"⟩] }

/-- A recognition result that sights "Allow" at (1310, 705) and nothing else. -/
def cFindAllow : String → List Pt :=
  fun b => if b == "Allow" then [⟨1310, 705⟩] else []

/-- A recognition result that sights "Allow" at (1302, 698) and nothing else. -/
def cFindAllowDrift : String → List Pt :=
  fun b => if b == "Allow" then [⟨1302, 698⟩] else []

/-- A recognition result that sights "Continue" at (10, 10) and nothing else. -/
def cFindSee : String → List Pt :=
  fun b => if b == "Continue" then [⟨10, 10⟩] else []

/-- A gateway state with a learned position and nonzero stats. -/
def gwEx : Gateway.GatewayState :=
  { session :=
      { id := "d0t-1"
        startedAt := "2025-01-01T00:00:00.000Z"
        learnedPositions := [("Allow", ⟨640, 480, "2025-01-01T00:10:00.000Z"⟩)]
        preferences := { confirmClicks := false, verbose := true } }
    stats := { totalActions := 7, totalClicks := 5, totalTypes := 2, uptime := 1000 } }

/-- Tasks of priorities 1, 5 and 3 with trivially succeeding actions. -/
def taskP1 : TaskQueue.Task :=
  { name := "t1", priority := 1, actions := [Except.ok ()],
    status := TaskQueue.TStatus.queued, error := none }

/-- Priority-5 task. -/
def taskP5 : TaskQueue.Task :=
  { name := "t5", priority := 5, actions := [Except.ok ()],
    status := TaskQueue.TStatus.queued, error := none }

/-- Priority-3 task. -/
def taskP3 : TaskQueue.Task :=
  { name := "t3", priority := 3, actions := [Except.ok ()],
    status := TaskQueue.TStatus.queued, error := none }

/-- A task already running in the single executor slot. -/
def busyTask : TaskQueue.Task :=
  { name := "busy", priority := 0, actions := [Except.ok ()],
    status := TaskQueue.TStatus.running, error := none }

/-- The event sequence enqueuing priorities [1, 5, 3] into an *idle* queue
and letting every task run to completion. -/
def evsIdleEx : List TaskQueue.QEvent :=
  [TaskQueue.QEvent.enq taskP1, TaskQueue.QEvent.enq taskP5, TaskQueue.QEvent.enq taskP3,
   TaskQueue.QEvent.finish, TaskQueue.QEvent.finish, TaskQueue.QEvent.finish]

/-- A task whose 2nd of 3 actions throws "step 2 exploded". -/
def failingTask : TaskQueue.Task :=
  { name := "explodes", priority := 0,
    actions := [Except.ok (), Except.error "step 2 exploded", Except.ok ()],
    status := TaskQueue.TStatus.running, error := none }

/-! ## Association-list lemmas -/

theorem find_replace {β : Type} (k : String) (v : β) :
    ∀ m : List (String × β), m.any (fun p => p.1 == k) = true →
      (m.map (fun p => if p.1 == k then (k, v) else p)).find? (fun p => p.1 == k) =
        some (k, v) := by
  intro m
  induction m with
  | nil => simp
  | cons p rest ih =>
    intro hany
    by_cases hp : p.1 = k
    · simp [List.find?, hp]
    · have hpb : (p.1 == k) = false := by simpa using hp
      simp only [List.any_cons, Bool.or_eq_true] at hany
      rcases hany with h | h
      · exact absurd h (by simp [hpb])
      · simp only [List.map_cons, hpb, Bool.false_eq_true, if_false]
        rw [List.find?_cons_of_neg _ (by simp [hpb])]
        exact ih h

theorem find_map_replace_ne {β : Type} (k k2 : String) (v : β)
    (hne : (k2 == k) = false) :
    ∀ m : List (String × β),
      (m.map (fun p => if p.1 == k then (k, v) else p)).find? (fun p => p.1 == k2) =
        m.find? (fun p => p.1 == k2) := by
  intro m
  induction m with
  | nil => simp
  | cons p rest ih =>
    have h2 : ¬(k2 = k) := by simpa using hne
    by_cases hp : p.1 = k2
    · have hpk : (p.1 == k) = false := by simp [hp]; exact h2
      have hpb2 : (p.1 == k2) = true := by simp [hp]
      simp only [List.map_cons, hpk, Bool.false_eq_true, if_false]
      simp only [List.find?, hpb2]
    · have hpb : (p.1 == k2) = false := by simpa using hp
      by_cases hpk : p.1 = k
      · have hkk2 : (k == k2) = false := by simp; exact fun h => h2 h.symm
        simp only [List.map_cons, hpk, beq_self_eq_true, if_true]
        rw [List.find?_cons_of_neg _ (by simp [hkk2]),
            List.find?_cons_of_neg _ (by simp [hpb])]
        exact ih
      · have hpkb : (p.1 == k) = false := by simpa using hpk
        simp only [List.map_cons, hpkb, Bool.false_eq_true, if_false]
        rw [List.find?_cons_of_neg _ (by simp [hpb]),
            List.find?_cons_of_neg _ (by simp [hpb])]
        exact ih

theorem getA_setA {β : Type} (k : String) (v : β) (m : List (String × β)) :
    getA (setA m k v) k = some v := by
  unfold getA setA
  by_cases hany : m.any (fun p => p.1 == k)
  · rw [if_pos hany, find_replace k v m hany]
    rfl
  · have hnone : m.find? (fun p => p.1 == k) = none := by
      rw [List.find?_eq_none]
      intro x hx hpx
      exact hany (List.any_eq_true.mpr ⟨x, hx, hpx⟩)
    simp [hany, List.find?_append, hnone]

theorem getA_setA_ne {β : Type} (k k2 : String) (v : β) (m : List (String × β))
    (hne : (k2 == k) = false) :
    getA (setA m k v) k2 = getA m k2 := by
  unfold getA setA
  by_cases hany : m.any (fun p => p.1 == k)
  · rw [if_pos hany, find_map_replace_ne k k2 v hne m]
  · have hkk2 : (k == k2) = false := by
      have h2 : ¬(k2 = k) := by simpa using hne
      simp
      exact fun h => h2 h.symm
    have hnone : List.find? (fun p => p.1 == k2) [(k, v)] = none := by
      simp [List.find?, hkk2]
    simp [hany, List.find?_append, hnone]

/-! ## Ghost `decide` lemmas -/

theorem commit_no_click_below (cfg : Ghost.GhostConfig) (st : Ghost.GhostState)
    (best : Ghost.Button) (h : st.pendingCount + 1 < cfg.confirmScans)
    (x y : Int) (r : String) :
    (Ghost.commitStage cfg st best).1 ≠ Ghost.DAction.click x y r := by
  simp only [Ghost.commitStage, Ghost.updatePending]
  repeat' split
  all_goals simp_all
  all_goals omega

theorem confirm_no_click_below (cfg : Ghost.GhostConfig) (st : Ghost.GhostState)
    (bs : List Ghost.Button) (h : st.pendingCount + 1 < cfg.confirmScans)
    (x y : Int) (r : String) :
    (Ghost.confirmStage cfg st bs).1 ≠ Ghost.DAction.click x y r := by
  simp only [Ghost.confirmStage]
  exact commit_no_click_below cfg st _ h x y r

theorem decide_no_click_below (cfg : Ghost.GhostConfig) (st : Ghost.GhostState)
    (words : List Ghost.Word) (h : st.pendingCount + 1 < cfg.confirmScans)
    (x y : Int) (r : String) :
    (Ghost.decide cfg st words).1 ≠ Ghost.DAction.click x y r := by
  simp only [Ghost.decide]
  split
  · simp
  · split
    · simp
    · split
      · simp
      · exact confirm_no_click_below cfg st _ h x y r

theorem decide_rate_limited (cfg : Ghost.GhostConfig) (st : Ghost.GhostState)
    (words : List Ghost.Word) (h : cfg.maxActionsPerMinute ≤ st.actionsThisMinute) :
    Ghost.decide cfg st words = (Ghost.DAction.wait "Rate limited", st) := by
  simp only [Ghost.decide]
  rw [if_pos h]

theorem decide_state_of_no_buttons (cfg : Ghost.GhostConfig) (st : Ghost.GhostState)
    (words : List Ghost.Word) (h : Ghost.findButtons cfg words = []) :
    (Ghost.decide cfg st words).2 = st := by
  simp only [Ghost.decide, h, List.isEmpty_nil]
  split
  · rfl
  · rfl

theorem commit_click_clears (cfg : Ghost.GhostConfig) (st : Ghost.GhostState)
    (best : Ghost.Button) (x y : Int) (r : String) (st2 : Ghost.GhostState)
    (h : Ghost.commitStage cfg st best = (Ghost.DAction.click x y r, st2)) :
    st2.pendingButton = none ∧ st2.pendingCount = 0 := by
  simp only [Ghost.commitStage, Ghost.updatePending] at h
  repeat' split at h
  all_goals simp at h
  all_goals obtain ⟨h1, h2⟩ := h
  all_goals subst h2
  all_goals exact ⟨rfl, rfl⟩

theorem confirm_click_clears (cfg : Ghost.GhostConfig) (st : Ghost.GhostState)
    (bs : List Ghost.Button) (x y : Int) (r : String) (st2 : Ghost.GhostState)
    (h : Ghost.confirmStage cfg st bs = (Ghost.DAction.click x y r, st2)) :
    st2.pendingButton = none ∧ st2.pendingCount = 0 := by
  simp only [Ghost.confirmStage] at h
  exact commit_click_clears cfg st _ x y r st2 h

theorem decide_click_clears (cfg : Ghost.GhostConfig) (st : Ghost.GhostState)
    (words : List Ghost.Word) (x y : Int) (r : String) (st2 : Ghost.GhostState)
    (h : Ghost.decide cfg st words = (Ghost.DAction.click x y r, st2)) :
    st2.pendingButton = none ∧ st2.pendingCount = 0 := by
  simp only [Ghost.decide] at h
  split at h
  · simp at h
  · split at h
    · simp at h
    · split at h
      · simp at h
      · exact confirm_click_clears cfg st _ x y r st2 h

/-! ## Smart scan lemmas -/

theorem scan_skip_nofind (now : Int) (find : String → List Pt) (b : String)
    (bs : List String) (st : Smart.SmartState) (h : find b = []) :
    Smart.scanButtons now find (b :: bs) st = Smart.scanButtons now find bs st := by
  simp only [Smart.scanButtons, h]
  split <;> rfl

theorem scan_skip_cooldown (now : Int) (find : String → List Pt) (b : String)
    (bs : List String) (st : Smart.SmartState)
    (h : Smart.isOnCooldown now st b = true) :
    Smart.scanButtons now find (b :: bs) st = Smart.scanButtons now find bs st := by
  simp only [Smart.scanButtons, h, if_true]

theorem scan_front_skip (now : Int) (find : String → List Pt) :
    ∀ (pre rest : List String) (st : Smart.SmartState),
      (∀ b ∈ pre, find b = []) →
      Smart.scanButtons now find (pre ++ rest) st = Smart.scanButtons now find rest st := by
  intro pre
  induction pre with
  | nil => intro rest st _; rfl
  | cons b pre ih =>
    intro rest st h
    rw [List.cons_append,
        scan_skip_nofind now find b (pre ++ rest) st (h b (List.mem_cons_self b pre))]
    exact ih rest st (fun c hc => h c (List.mem_cons_of_mem b hc))

theorem scan_all_skip (now : Int) (find : String → List Pt) :
    ∀ (bs : List String) (st : Smart.SmartState),
      (∀ b ∈ bs, find b = []) →
      Smart.scanButtons now find bs st = (st, none) := by
  intro bs
  induction bs with
  | nil => intro st _; rfl
  | cons b bs ih =>
    intro st h
    rw [scan_skip_nofind now find b bs st (h b (List.mem_cons_self b bs))]
    exact ih st (fun c hc => h c (List.mem_cons_of_mem b hc))

theorem scan_loop_step (now : Int) (find : String → List Pt) (b : String)
    (bs : List String) (st : Smart.SmartState) (t : Pt) (ts : List Pt)
    (hcool : Smart.isOnCooldown now st b = false)
    (hfind : find b = t :: ts)
    (hloop : Smart.isLoopPosition now st t.x t.y = true) :
    Smart.scanButtons now find (b :: bs) st =
      Smart.scanButtons now find bs { st with loopsAvoided := st.loopsAvoided + 1 } := by
  simp only [Smart.scanButtons, hcool, Bool.false_eq_true, if_false, hfind, hloop, if_true]

theorem scan_click_step (now : Int) (find : String → List Pt) (b : String)
    (bs : List String) (st : Smart.SmartState) (t : Pt) (ts : List Pt)
    (hcool : Smart.isOnCooldown now st b = false)
    (hfind : find b = t :: ts)
    (hloop : Smart.isLoopPosition now st t.x t.y = false) :
    Smart.scanButtons now find (b :: bs) st =
      (Smart.recordClick now st b t.x t.y, some (b, t.x, t.y)) := by
  simp only [Smart.scanButtons, hcool, Bool.false_eq_true, if_false, hfind, hloop]

theorem buttons_nodup_decomp (btn : String) (hmem : btn ∈ Smart.CONFIG.buttons) :
    ∃ pre post, Smart.CONFIG.buttons = pre ++ btn :: post ∧ btn ∉ pre ∧ btn ∉ post := by
  obtain ⟨pre, post, hdec⟩ := List.append_of_mem hmem
  refine ⟨pre, post, hdec, ?_, ?_⟩
  · have hnodup : Smart.CONFIG.buttons.Nodup := by decide
    rw [hdec, List.nodup_append] at hnodup
    intro hin
    exact hnodup.2.2 hin (List.mem_cons_self btn post)
  · have hnodup : Smart.CONFIG.buttons.Nodup := by decide
    rw [hdec, List.nodup_append] at hnodup
    exact fun hin => (List.nodup_cons.mp hnodup.2.1).1 hin

theorem smartScan_loop_suppresses (now : Int) (find : String → List Pt)
    (st : Smart.SmartState) (btn : String) (x y : Int)
    (hmem : btn ∈ Smart.CONFIG.buttons)
    (hother : ∀ b, b ≠ btn → find b = [])
    (hfind : find btn = [⟨x, y⟩])
    (hcool : Smart.isOnCooldown now st btn = false)
    (hloop : Smart.isLoopPosition now st x y = true) :
    Smart.smartScan now find st = ({ st with loopsAvoided := st.loopsAvoided + 1 }, none) := by
  obtain ⟨pre, post, hdec, hpre, hpost⟩ := buttons_nodup_decomp btn hmem
  have hpre2 : ∀ b ∈ pre, find b = [] :=
    fun b hb => hother b (fun he => hpre (he ▸ hb))
  have hpost2 : ∀ b ∈ post, find b = [] :=
    fun b hb => hother b (fun he => hpost (he ▸ hb))
  rw [Smart.smartScan, hdec, scan_front_skip now find pre _ st hpre2,
      scan_loop_step now find btn post st ⟨x, y⟩ [] hcool hfind hloop,
      scan_all_skip now find post _ hpost2]

theorem smartScan_click (now : Int) (find : String → List Pt)
    (st : Smart.SmartState) (btn : String) (x y : Int)
    (hmem : btn ∈ Smart.CONFIG.buttons)
    (hother : ∀ b, b ≠ btn → find b = [])
    (hfind : find btn = [⟨x, y⟩])
    (hcool : Smart.isOnCooldown now st btn = false)
    (hloop : Smart.isLoopPosition now st x y = false) :
    Smart.smartScan now find st =
      (Smart.recordClick now st btn x y, some (btn, x, y)) := by
  obtain ⟨pre, post, hdec, hpre, hpost⟩ := buttons_nodup_decomp btn hmem
  have hpre2 : ∀ b ∈ pre, find b = [] :=
    fun b hb => hother b (fun he => hpre (he ▸ hb))
  rw [Smart.smartScan, hdec, scan_front_skip now find pre _ st hpre2,
      scan_click_step now find btn post st ⟨x, y⟩ [] hcool hfind hloop]

theorem smartScan_cooldown_skips (now : Int) (find : String → List Pt)
    (st : Smart.SmartState) (btn : String)
    (hmem : btn ∈ Smart.CONFIG.buttons)
    (hother : ∀ b, b ≠ btn → find b = [])
    (hcool : Smart.isOnCooldown now st btn = true) :
    Smart.smartScan now find st = (st, none) := by
  obtain ⟨pre, post, hdec, hpre, hpost⟩ := buttons_nodup_decomp btn hmem
  have hpre2 : ∀ b ∈ pre, find b = [] :=
    fun b hb => hother b (fun he => hpre (he ▸ hb))
  have hpost2 : ∀ b ∈ post, find b = [] :=
    fun b hb => hother b (fun he => hpost (he ▸ hb))
  rw [Smart.smartScan, hdec, scan_front_skip now find pre _ st hpre2,
      scan_skip_cooldown now find btn post st hcool,
      scan_all_skip now find post _ hpost2]

theorem recordClick_lastClickTime (now : Int) (st : Smart.SmartState)
    (btn : String) (x y : Int) :
    (Smart.recordClick now st btn x y).lastClickTime = setA st.lastClickTime btn now := by
  simp only [Smart.recordClick]
  split <;> rfl

theorem cooldown_after_record (now t0 : Int) (st : Smart.SmartState)
    (btn : String) (x y : Int) :
    Smart.isOnCooldown now (Smart.recordClick t0 st btn x y) btn =
      decide (now - t0 < Smart.CONFIG.buttonCooldown) := by
  unfold Smart.isOnCooldown
  rw [recordClick_lastClickTime, getA_setA]

/-! ## Stable sort lemmas -/

theorem mem_insertSorted {α : Type} (lt : α → α → Bool) (x a : α) :
    ∀ s, a ∈ insertSorted lt x s ↔ a = x ∨ a ∈ s := by
  intro s
  induction s with
  | nil => simp [insertSorted]
  | cons y ys ih =>
    simp only [insertSorted]
    split
    · simp only [List.mem_cons, ih]
      tauto
    · simp [List.mem_cons]

theorem mem_stableSortBy {α : Type} (lt : α → α → Bool) (a : α) :
    ∀ l, a ∈ stableSortBy lt l ↔ a ∈ l := by
  intro l
  induction l with
  | nil => simp [stableSortBy]
  | cons x xs ih =>
    simp only [stableSortBy, mem_insertSorted, ih, List.mem_cons]

theorem length_insertSorted {α : Type} (lt : α → α → Bool) (x : α) :
    ∀ s, (insertSorted lt x s).length = s.length + 1 := by
  intro s
  induction s with
  | nil => rfl
  | cons y ys ih =>
    simp only [insertSorted]
    split
    · simp [ih]
    · simp

theorem length_stableSortBy {α : Type} (lt : α → α → Bool) :
    ∀ l, (stableSortBy lt l).length = l.length := by
  intro l
  induction l with
  | nil => rfl
  | cons x xs ih =>
    simp only [stableSortBy, length_insertSorted, ih, List.length_cons]

theorem ins_insertLast_comm (x t : TaskQueue.Task) :
    ∀ s, insertSorted TaskQueue.taskLt x (insertLast TaskQueue.taskLt t s) =
      insertLast TaskQueue.taskLt t (insertSorted TaskQueue.taskLt x s) := by
  intro s
  induction s with
  | nil => simp [insertLast, insertSorted]
  | cons y ys ih =>
    by_cases hty : TaskQueue.taskLt t y = true
    · by_cases hyx : TaskQueue.taskLt y x = true
      · have htx : TaskQueue.taskLt t x = true := by
          simp only [TaskQueue.taskLt, decide_eq_true_eq] at hty hyx ⊢
          omega
        simp [insertSorted, insertLast, hty, hyx, htx]
      · simp only [Bool.not_eq_true] at hyx
        by_cases htx : TaskQueue.taskLt t x = true
        · simp [insertSorted, insertLast, hty, hyx, htx]
        · simp only [Bool.not_eq_true] at htx
          simp [insertSorted, insertLast, hty, hyx, htx]
    · simp only [Bool.not_eq_true] at hty
      by_cases hyx : TaskQueue.taskLt y x = true
      · simp [insertSorted, insertLast, hty, hyx, ih]
      · simp only [Bool.not_eq_true] at hyx
        by_cases htx : TaskQueue.taskLt t x = true
        · exfalso
          simp only [TaskQueue.taskLt, decide_eq_true_eq, decide_eq_false_iff_not] at hty hyx htx
          omega
        · simp only [Bool.not_eq_true] at htx
          simp [insertSorted, insertLast, hty, hyx, htx]

theorem sort_append_single (t : TaskQueue.Task) :
    ∀ l, stableSortBy TaskQueue.taskLt (l ++ [t]) =
      insertLast TaskQueue.taskLt t (stableSortBy TaskQueue.taskLt l) := by
  intro l
  induction l with
  | nil => rfl
  | cons x xs ih =>
    rw [List.cons_append]
    simp only [stableSortBy]
    rw [ih, ins_insertLast_comm]

theorem pairwise_insertSorted (x : TaskQueue.Task) :
    ∀ s, List.Pairwise (fun a b => b.priority ≤ a.priority) s →
      List.Pairwise (fun a b => b.priority ≤ a.priority)
        (insertSorted TaskQueue.taskLt x s) := by
  intro s
  induction s with
  | nil =>
    intro _
    simp [insertSorted]
  | cons y ys ih =>
    intro hp
    rw [List.pairwise_cons] at hp
    simp only [insertSorted]
    split
    · rename_i hlt
      rw [List.pairwise_cons]
      refine ⟨?_, ih hp.2⟩
      intro z hz
      rw [mem_insertSorted] at hz
      rcases hz with rfl | hz
      · simp only [TaskQueue.taskLt, decide_eq_true_eq] at hlt
        omega
      · exact hp.1 z hz
    · rename_i hlt
      simp only [TaskQueue.taskLt, decide_eq_true_eq, Bool.not_eq_true,
        decide_eq_false_iff_not] at hlt
      rw [List.pairwise_cons]
      refine ⟨?_, List.pairwise_cons.mpr ⟨hp.1, hp.2⟩⟩
      intro z hz
      rcases List.mem_cons.mp hz with rfl | hz
      · omega
      · have h1 : z.priority ≤ y.priority := hp.1 z hz
        omega

theorem pairwise_stableSortBy :
    ∀ l, List.Pairwise (fun a b => b.priority ≤ a.priority)
      (stableSortBy TaskQueue.taskLt l) := by
  intro l
  induction l with
  | nil => simp [stableSortBy]
  | cons x xs ih => exact pairwise_insertSorted x _ ih

theorem insertSorted_of_le (x : TaskQueue.Task) (s : List TaskQueue.Task)
    (h : ∀ y ∈ s, y.priority ≤ x.priority) :
    insertSorted TaskQueue.taskLt x s = x :: s := by
  cases s with
  | nil => rfl
  | cons y ys =>
    have hy : y.priority ≤ x.priority := h y (List.mem_cons_self y ys)
    have : TaskQueue.taskLt y x = false := by
      simp only [TaskQueue.taskLt, decide_eq_false_iff_not]
      omega
    simp [insertSorted, this]

theorem sort_sorted_id :
    ∀ s, List.Pairwise (fun a b => b.priority ≤ a.priority) s →
      stableSortBy TaskQueue.taskLt s = s := by
  intro s
  induction s with
  | nil => intro _; rfl
  | cons x xs ih =>
    intro hp
    rw [List.pairwise_cons] at hp
    simp only [stableSortBy, ih hp.2]
    exact insertSorted_of_le x xs hp.1

theorem sort_idem (l : List TaskQueue.Task) :
    stableSortBy TaskQueue.taskLt (stableSortBy TaskQueue.taskLt l) =
      stableSortBy TaskQueue.taskLt l :=
  sort_sorted_id _ (pairwise_stableSortBy l)

theorem sort_push (l : List TaskQueue.Task) (t : TaskQueue.Task) :
    stableSortBy TaskQueue.taskLt (stableSortBy TaskQueue.taskLt l ++ [t]) =
      stableSortBy TaskQueue.taskLt (l ++ [t]) := by
  rw [sort_append_single, sort_append_single, sort_idem]

theorem insertSorted_filter_eq (x : TaskQueue.Task) (p : Int) (hx : x.priority = p) :
    ∀ s, (insertSorted TaskQueue.taskLt x s).filter (fun u => u.priority == p) =
      x :: s.filter (fun u => u.priority == p) := by
  intro s
  induction s with
  | nil => simp [insertSorted, List.filter, hx]
  | cons y ys ih =>
    simp only [insertSorted]
    split
    · rename_i hlt
      simp only [TaskQueue.taskLt, decide_eq_true_eq] at hlt
      have hyp : (y.priority == p) = false := by
        simp only [beq_eq_false_iff_ne]
        omega
      simp [List.filter_cons, hyp, ih]
    · simp [List.filter_cons, hx]

theorem insertSorted_filter_ne (x : TaskQueue.Task) (p : Int)
    (hx : (x.priority == p) = false) :
    ∀ s, (insertSorted TaskQueue.taskLt x s).filter (fun u => u.priority == p) =
      s.filter (fun u => u.priority == p) := by
  intro s
  induction s with
  | nil => simp [insertSorted, List.filter, hx]
  | cons y ys ih =>
    simp only [insertSorted]
    split
    · simp [List.filter_cons, ih]
    · simp [List.filter_cons, hx]

theorem sort_filter_stable :
    ∀ (l : List TaskQueue.Task) (p : Int),
      (stableSortBy TaskQueue.taskLt l).filter (fun u => u.priority == p) =
        l.filter (fun u => u.priority == p) := by
  intro l
  induction l with
  | nil => intro p; rfl
  | cons x xs ih =>
    intro p
    by_cases hx : x.priority = p
    · simp only [stableSortBy, insertSorted_filter_eq x p hx, ih, List.filter_cons]
      simp [hx]
    · have hxb : (x.priority == p) = false := by simpa using hx
      simp only [stableSortBy, insertSorted_filter_ne x p hxb, ih, List.filter_cons]
      simp [hxb]

/-! ## Task queue lemmas -/

theorem enq_busy (st : TaskQueue.QState) (t c : TaskQueue.Task)
    (hc : st.currentTask = some c) :
    TaskQueue.enqueueTask st t =
      { st with taskQueue :=
          stableSortBy TaskQueue.taskLt (st.taskQueue ++ [TaskQueue.markQueued t]) } := by
  simp only [TaskQueue.enqueueTask, hc]

theorem runQ_cons (st : TaskQueue.QState) (e : TaskQueue.QEvent)
    (evs : List TaskQueue.QEvent) :
    TaskQueue.runQ st (e :: evs) = TaskQueue.runQ (TaskQueue.qstep st e) evs := rfl

theorem enq_fold_busy :
    ∀ (ts : List TaskQueue.Task) (q : List TaskQueue.Task) (c : TaskQueue.Task)
      (e : List TaskQueue.Task),
      TaskQueue.runQ ⟨stableSortBy TaskQueue.taskLt q, some c, e⟩
          (ts.map TaskQueue.QEvent.enq) =
        ⟨stableSortBy TaskQueue.taskLt (q ++ ts.map TaskQueue.markQueued), some c, e⟩ := by
  intro ts
  induction ts with
  | nil =>
    intro q c e
    simp [TaskQueue.runQ]
  | cons t ts ih =>
    intro q c e
    rw [List.map_cons, runQ_cons]
    have hstep : TaskQueue.qstep ⟨stableSortBy TaskQueue.taskLt q, some c, e⟩
        (TaskQueue.QEvent.enq t) =
        ⟨stableSortBy TaskQueue.taskLt (q ++ [TaskQueue.markQueued t]), some c, e⟩ := by
      simp only [TaskQueue.qstep, TaskQueue.enqueueTask, sort_push]
    rw [hstep]
    have h2 := ih (q ++ [TaskQueue.markQueued t]) c e
    rw [List.append_assoc, List.singleton_append] at h2
    exact h2

theorem drain :
    ∀ (q : List TaskQueue.Task) (c : TaskQueue.Task) (e : List TaskQueue.Task),
      TaskQueue.runQ ⟨q, some c, e⟩ (List.replicate (q.length + 1) TaskQueue.QEvent.finish) =
        ⟨[], none,
          e ++ TaskQueue.terminalize c ::
            q.map (fun u => TaskQueue.terminalize (TaskQueue.markRunning u))⟩ := by
  intro q
  induction q with
  | nil =>
    intro c e
    simp [TaskQueue.runQ, TaskQueue.qstep, TaskQueue.finishCurrent, TaskQueue.startNext]
  | cons t q ih =>
    intro c e
    rw [List.replicate_succ, runQ_cons]
    have hstep : TaskQueue.qstep ⟨t :: q, some c, e⟩ TaskQueue.QEvent.finish =
        ⟨q, some (TaskQueue.markRunning t), e ++ [TaskQueue.terminalize c]⟩ := by
      simp [TaskQueue.qstep, TaskQueue.finishCurrent, TaskQueue.startNext]
    rw [hstep]
    have h2 := ih (TaskQueue.markRunning t) (e ++ [TaskQueue.terminalize c])
    rw [show (t :: q).length = q.length + 1 from rfl]
    rw [h2]
    simp [List.append_assoc]

theorem terminalize_status (t : TaskQueue.Task) :
    (TaskQueue.terminalize t).status = TaskQueue.TStatus.completed ∨
      (TaskQueue.terminalize t).status = TaskQueue.TStatus.failed := by
  unfold TaskQueue.terminalize
  split
  · exact Or.inl rfl
  · exact Or.inr rfl

theorem startNext_inv (st : TaskQueue.QState)
    (h1 : ∀ t ∈ st.taskQueue, t.status = TaskQueue.TStatus.queued)
    (h3 : ∀ t ∈ st.executed,
      t.status = TaskQueue.TStatus.completed ∨ t.status = TaskQueue.TStatus.failed) :
    TaskQueue.QInv (TaskQueue.startNext st) := by
  unfold TaskQueue.startNext
  split
  · rename_i heq
    refine ⟨?_, ?_, h3⟩
    · intro t ht
      exact h1 t ht
    · intro t ht
      simp at ht
  · rename_i t rest heq
    refine ⟨?_, ?_, h3⟩
    · intro u hu
      exact h1 u (heq ▸ List.mem_cons_of_mem t hu)
    · intro u hu
      simp only [Option.some.injEq] at hu
      rw [← hu]
      rfl

theorem qstep_inv (st : TaskQueue.QState) (e : TaskQueue.QEvent)
    (h : TaskQueue.QInv st) : TaskQueue.QInv (TaskQueue.qstep st e) := by
  obtain ⟨hq, hc, he⟩ := h
  cases e with
  | enq t =>
    have hq' : ∀ u ∈ stableSortBy TaskQueue.taskLt
        (st.taskQueue ++ [TaskQueue.markQueued t]),
        u.status = TaskQueue.TStatus.queued := by
      intro u hu
      rw [mem_stableSortBy] at hu
      rcases List.mem_append.mp hu with h1 | h1
      · exact hq u h1
      · rw [List.mem_singleton.mp h1]
        rfl
    simp only [TaskQueue.qstep, TaskQueue.enqueueTask]
    cases hcur : st.currentTask with
    | some c =>
      refine ⟨hq', ?_, he⟩
      intro u hu
      have hu2 : some c = some u := hu
      injection hu2 with hcu
      rw [← hcu]
      exact hc c hcur
    | none =>
      exact startNext_inv _ hq' he
  | finish =>
    simp only [TaskQueue.qstep, TaskQueue.finishCurrent]
    cases hcur : st.currentTask with
    | none => exact ⟨hq, hc, he⟩
    | some c =>
      apply startNext_inv
      · exact hq
      · intro u hu
        rcases List.mem_append.mp hu with h1 | h1
        · exact he u h1
        · rw [List.mem_singleton.mp h1]
          exact terminalize_status c

theorem runQ_inv :
    ∀ (evs : List TaskQueue.QEvent) (st : TaskQueue.QState),
      TaskQueue.QInv st → TaskQueue.QInv (TaskQueue.runQ st evs) := by
  intro evs
  induction evs with
  | nil => intro st h; exact h
  | cons e evs ih =>
    intro st h
    rw [runQ_cons]
    exact ih _ (qstep_inv st e h)

theorem qinv_init : TaskQueue.QInv TaskQueue.initQ := by
  refine ⟨?_, ?_, ?_⟩
  · intro t ht
    simp [TaskQueue.initQ] at ht
  · intro t ht
    simp [TaskQueue.initQ] at ht
  · intro t ht
    simp [TaskQueue.initQ] at ht

theorem running_le_one (st : TaskQueue.QState) (h : TaskQueue.QInv st) :
    TaskQueue.runningCount st ≤ 1 := by
  obtain ⟨hq, hc, he⟩ := h
  unfold TaskQueue.runningCount
  have hq0 : (st.taskQueue.filter
      (fun t => t.status == TaskQueue.TStatus.running)).length = 0 := by
    rw [List.length_eq_zero, List.filter_eq_nil_iff]
    intro a ha
    simp [hq a ha]
  have he0 : (st.executed.filter
      (fun t => t.status == TaskQueue.TStatus.running)).length = 0 := by
    rw [List.length_eq_zero, List.filter_eq_nil_iff]
    intro a ha
    rcases he a ha with h1 | h1 <;> simp [h1]
  rw [hq0, he0]
  cases st.currentTask with
  | none => simp
  | some t =>
    by_cases hrun : (t.status == TaskQueue.TStatus.running) = true
    · simp [hrun]
    · simp [hrun]

theorem executeTrace_fail (m : String) :
    ∀ (k : Nat) (post : List (Except String Unit)),
      TaskQueue.executeTrace
          (List.replicate k (Except.ok ()) ++ Except.error m :: post) =
        (k + 1, some m) := by
  intro k
  induction k with
  | zero =>
    intro post
    simp [TaskQueue.executeTrace]
  | succ k ih =>
    intro post
    rw [List.replicate_succ, List.cons_append]
    simp only [TaskQueue.executeTrace, ih]

theorem executeTrace_ok :
    ∀ (acts : List (Except String Unit)),
      (∀ a ∈ acts, a = Except.ok ()) →
      TaskQueue.executeTrace acts = (acts.length, none) := by
  intro acts
  induction acts with
  | nil => intro _; rfl
  | cons a acts ih =>
    intro h
    rw [h a (List.mem_cons_self a acts)]
    simp only [TaskQueue.executeTrace, ih (fun b hb => h b (List.mem_cons_of_mem a hb))]
    rfl

/-! ## Gateway `see` remembering lemmas -/

theorem getA_seeFold_not_mem (find : String → List Pt) (nowIso : String) :
    ∀ (ps : List String) (m : List (String × Gateway.LearnedEntry)) (k : String),
      k ∉ ps →
      getA (Gateway.seeFold find nowIso ps m) k = getA m k := by
  intro ps
  induction ps with
  | nil => intro m k _; rfl
  | cons p ps ih =>
    intro m k hk
    have hkp : k ≠ p := fun he => hk (he ▸ List.mem_cons_self p ps)
    have hk2 : k ∉ ps := fun hin => hk (List.mem_cons_of_mem p hin)
    show getA (Gateway.seeFold find nowIso ps
      (match find p with
       | [] => m
       | t :: _ => setA m p ⟨t.x, t.y, nowIso⟩)) k = getA m k
    cases hfp : find p with
    | nil => exact ih m k hk2
    | cons t ts =>
      rw [ih _ k hk2]
      exact getA_setA_ne p k _ m (by simpa using hkp)

theorem getA_seeFold_sight (find : String → List Pt) (nowIso : String) :
    ∀ (ps : List String) (m : List (String × Gateway.LearnedEntry)) (p : String)
      (t : Pt) (ts : List Pt),
      p ∈ ps → ps.Nodup → find p = t :: ts →
      getA (Gateway.seeFold find nowIso ps m) p = some ⟨t.x, t.y, nowIso⟩ := by
  intro ps
  induction ps with
  | nil =>
    intro m p t ts hmem _ _
    exact absurd hmem (List.not_mem_nil p)
  | cons q ps ih =>
    intro m p t ts hmem hnodup hfind
    rcases List.mem_cons.mp hmem with rfl | hmem2
    · have hnotin : p ∉ ps := (List.nodup_cons.mp hnodup).1
      show getA (Gateway.seeFold find nowIso ps
        (match find p with
         | [] => m
         | u :: _ => setA m p ⟨u.x, u.y, nowIso⟩)) p = some ⟨t.x, t.y, nowIso⟩
      rw [hfind]
      rw [getA_seeFold_not_mem find nowIso ps _ p hnotin]
      exact getA_setA p _ m
    · show getA (Gateway.seeFold find nowIso ps
        (match find q with
         | [] => m
         | u :: _ => setA m q ⟨u.x, u.y, nowIso⟩)) p = some ⟨t.x, t.y, nowIso⟩
      cases hfq : find q with
      | nil => exact ih m p t ts hmem2 (List.nodup_cons.mp hnodup).2 hfind
      | cons u us => exact ih _ p t ts hmem2 (List.nodup_cons.mp hnodup).2 hfind

/-! ## Claim theorems -/

/-- C1.  Confirmation debounce: whenever the sighting count (after this
cycle's sighting) is still below `confirmScans`, `decide` emits no click; and
with the source configuration (`confirmScans = 2`) a stable
Candidate("Continue", 1300, 700, conf 95) over two consecutive cycles yields
exactly the decision sequence [wait, click (1300, 700)] — no click on cycle 1
and the single click on cycle 2. -/
theorem c1_confirmation_debounce :
    (∀ (cfg : Ghost.GhostConfig) (st : Ghost.GhostState) (words : List Ghost.Word)
       (x y : Int) (r : String),
       st.pendingCount + 1 < cfg.confirmScans →
       (Ghost.decide cfg st words).1 ≠ Ghost.DAction.click x y r) ∧
    Ghost.CONFIG.confirmScans = 2 ∧
    (Ghost.runGhost Ghost.CONFIG Ghost.initialState [[continueWord], [continueWord]]).1 =
      [Ghost.DAction.wait "Confirming button is real",
       Ghost.DAction.click 1300 700 "Confirmed: \"Continue\""] :=
  ⟨fun cfg st words x y r h => decide_no_click_below cfg st words h x y r,
   rfl, by decide⟩

/-- Witness for C1 at a concrete input. -/
theorem c1_confirmation_debounce_witness :
    Ghost.initialState.pendingCount + 1 < Ghost.CONFIG.confirmScans ∧
    (Ghost.decide Ghost.CONFIG Ghost.initialState [continueWord]).1 ≠
      Ghost.DAction.click 1300 700 "r" :=
  ⟨by decide,
   c1_confirmation_debounce.1 Ghost.CONFIG Ghost.initialState [continueWord]
     1300 700 "r" (by decide)⟩

/-- C2.  Rate limit: once the rolling action counter has reached
`maxActionsPerMinute`, `decide` returns the "Rate limited" wait decision and
leaves the state untouched; with the source ceiling of 10, a state with 10
recent actions suppresses an otherwise-confirmed candidate, and the same
state after the window rolled down to 9 clicks it. -/
theorem c2_rate_limit :
    (∀ (cfg : Ghost.GhostConfig) (st : Ghost.GhostState) (words : List Ghost.Word),
       cfg.maxActionsPerMinute ≤ st.actionsThisMinute →
       Ghost.decide cfg st words = (Ghost.DAction.wait "Rate limited", st)) ∧
    Ghost.CONFIG.maxActionsPerMinute = 10 ∧
    Ghost.decide Ghost.CONFIG ghostRateEx [continueWord] =
      (Ghost.DAction.wait "Rate limited", ghostRateEx) ∧
    (Ghost.decide Ghost.CONFIG ghostRolledEx [continueWord]).1 =
      Ghost.DAction.click 1300 700 "Confirmed: \"Continue\"" :=
  ⟨fun cfg st words h => decide_rate_limited cfg st words h,
   rfl, by decide, by decide⟩

/-- Witness for C2 at a concrete input. -/
theorem c2_rate_limit_witness :
    Ghost.CONFIG.maxActionsPerMinute ≤ ghostRateEx.actionsThisMinute ∧
    Ghost.decide Ghost.CONFIG ghostRateEx [] =
      (Ghost.DAction.wait "Rate limited", ghostRateEx) :=
  ⟨by decide, c2_rate_limit.1 Ghost.CONFIG ghostRateEx [] (by decide)⟩

/-- C3.  Loop detection: when at least `loopThreshold` recorded clicks lie
within 50px on both axes of the sole candidate's position and inside the
trailing 30s, the scan suppresses the candidate (no click, no state change
beyond the counter) and increments loops-avoided by exactly 1; with the
source threshold of 3, three clicks at (1300, 700) suppress a candidate at
(1310, 705). -/
theorem c3_loop_detection :
    (∀ (now : Int) (st : Smart.SmartState) (find : String → List Pt)
       (btn : String) (x y : Int),
       btn ∈ Smart.CONFIG.buttons →
       (∀ b, b ≠ btn → find b = []) →
       find btn = [⟨x, y⟩] →
       Smart.isOnCooldown now st btn = false →
       Smart.CONFIG.loopThreshold ≤
         (st.recentClicks.filter (Smart.inLoopWindow now x y)).length →
       Smart.smartScan now find st =
         ({ st with loopsAvoided := st.loopsAvoided + 1 }, none)) ∧
    Smart.CONFIG.loopThreshold = 3 ∧
    Smart.smartScan 5000 cFindAllow smartLoopEx =
      ({ smartLoopEx with loopsAvoided := 1 }, none) :=
  ⟨fun now st find btn x y hmem hother hfind hcool hcount =>
      smartScan_loop_suppresses now find st btn x y hmem hother hfind hcool
        (by simp only [Smart.isLoopPosition, decide_eq_true_eq]; exact hcount),
   rfl, by decide⟩

/-- Witness for C3 at a concrete input. -/
theorem c3_loop_detection_witness :
    Smart.smartScan 5000 cFindAllow smartLoopEx =
      ({ smartLoopEx with loopsAvoided := smartLoopEx.loopsAvoided + 1 }, none) :=
  c3_loop_detection.1 5000 smartLoopEx cFindAllow "Allow" 1310 705 (by decide)
    (fun b hb => by simp [cFindAllow, hb]) (by decide) (by decide) (by decide)

/-- C4.  Per-pattern cooldown: after a recorded click on `btn` at `t0`, a
scan at `now` with `now − t0` below `buttonCooldown` skips every candidate
for `btn` (no click, state unchanged) wherever the candidate sits; once the
cooldown has elapsed the candidate is clicked at its (possibly drifted)
position. -/
theorem c4_per_pattern_cooldown :
    (∀ (st0 : Smart.SmartState) (btn : String) (x0 y0 t0 now x1 y1 : Int)
       (find : String → List Pt),
       btn ∈ Smart.CONFIG.buttons →
       (∀ b, b ≠ btn → find b = []) →
       find btn = [⟨x1, y1⟩] →
       now - t0 < Smart.CONFIG.buttonCooldown →
       Smart.smartScan now find (Smart.recordClick t0 st0 btn x0 y0) =
         (Smart.recordClick t0 st0 btn x0 y0, none)) ∧
    (∀ (st0 : Smart.SmartState) (btn : String) (x0 y0 t0 now x1 y1 : Int)
       (find : String → List Pt),
       btn ∈ Smart.CONFIG.buttons →
       (∀ b, b ≠ btn → find b = []) →
       find btn = [⟨x1, y1⟩] →
       Smart.CONFIG.buttonCooldown ≤ now - t0 →
       Smart.isLoopPosition now (Smart.recordClick t0 st0 btn x0 y0) x1 y1 = false →
       Smart.smartScan now find (Smart.recordClick t0 st0 btn x0 y0) =
         (Smart.recordClick now (Smart.recordClick t0 st0 btn x0 y0) btn x1 y1,
          some (btn, x1, y1))) :=
  ⟨fun st0 btn x0 y0 t0 now x1 y1 find hmem hother _ hlt =>
      smartScan_cooldown_skips now find (Smart.recordClick t0 st0 btn x0 y0) btn
        hmem hother
        (by rw [cooldown_after_record]; simpa using hlt),
   fun st0 btn x0 y0 t0 now x1 y1 find hmem hother hfind hge hloop =>
      smartScan_click now find (Smart.recordClick t0 st0 btn x0 y0) btn x1 y1
        hmem hother hfind
        (by rw [cooldown_after_record]; simpa using hge) hloop⟩

/-- Witness for C4 at concrete inputs: click "Allow" at t=0, suppressed at
t=5s, clicked again at t=11s at a drifted position. -/
theorem c4_per_pattern_cooldown_witness :
    Smart.smartScan 5000 cFindAllowDrift
        (Smart.recordClick 0 Smart.initialState "Allow" 1300 700) =
      (Smart.recordClick 0 Smart.initialState "Allow" 1300 700, none) ∧
    Smart.smartScan 11000 cFindAllowDrift
        (Smart.recordClick 0 Smart.initialState "Allow" 1300 700) =
      (Smart.recordClick 11000
        (Smart.recordClick 0 Smart.initialState "Allow" 1300 700) "Allow" 1302 698,
       some ("Allow", 1302, 698)) :=
  ⟨c4_per_pattern_cooldown.1 Smart.initialState "Allow" 1300 700 0 5000 1302 698
      cFindAllowDrift (by decide) (fun b hb => by simp [cFindAllowDrift, hb])
      (by decide) (by decide),
   c4_per_pattern_cooldown.2 Smart.initialState "Allow" 1300 700 0 11000 1302 698
      cFindAllowDrift (by decide) (fun b hb => by simp [cFindAllowDrift, hb])
      (by decide) (by decide) (by decide)⟩

/-- C5.  Learned-position round-trip and fallback: a successful click-by-text
clicks the live match and stores its position under the text; a later
`clickOn` for the same text with no live match clicks exactly the stored
coordinates (flagged `usedLearned`); and live recognition always wins when it
has a match, whatever is stored. -/
theorem c5_learned_roundtrip :
    ∀ (g : Gateway.GatewayState) (text : String) (t : Pt) (rest : List Pt)
      (now1 now2 : String),
      (Gateway.handleClickOn (t :: rest) text g now1).1 =
        Gateway.ClickOnResult.success t.x t.y false ∧
      getA ((Gateway.handleClickOn (t :: rest) text g now1).2).session.learnedPositions
          text = some ⟨t.x, t.y, now1⟩ ∧
      (Gateway.handleClickOn [] text
          ((Gateway.handleClickOn (t :: rest) text g now1).2) now2).1 =
        Gateway.ClickOnResult.success t.x t.y true ∧
      ((Gateway.handleClickOn [] text
          ((Gateway.handleClickOn (t :: rest) text g now1).2) now2).2).session =
        ((Gateway.handleClickOn (t :: rest) text g now1).2).session := by
  intro g text t rest now1 now2
  have hset : getA (setA g.session.learnedPositions text ⟨t.x, t.y, now1⟩) text =
      some ⟨t.x, t.y, now1⟩ := getA_setA text _ g.session.learnedPositions
  have hlearn :
      getA ((Gateway.handleClickOn (t :: rest) text g now1).2).session.learnedPositions
        text = some ⟨t.x, t.y, now1⟩ := hset
  refine ⟨rfl, hlearn, ?_, ?_⟩
  · simp only [Gateway.handleClickOn, hset]
  · simp only [Gateway.handleClickOn, hset]

/-- C6 counterexample: enqueuing priorities [1, 5, 3] into an *idle* queue
does not execute [5, 3, 1] — the first task starts immediately when the
executor is idle, so the execution order is [1, 5, 3]. -/
theorem c6_counterexample :
    (TaskQueue.runQ TaskQueue.initQ evsIdleEx).executed.map TaskQueue.Task.name =
      ["t1", "t5", "t3"] ∧
    (TaskQueue.runQ TaskQueue.initQ evsIdleEx).executed.map TaskQueue.Task.name ≠
      ["t5", "t3", "t1"] := by
  decide

/-- C6 (amended).  Tasks enqueued while a task is running drain in the stable
descending-priority order of their arrival list (strictly by priority, FIFO
within equal priority, as the sortedness and filter-stability conjuncts
state); at most one task is ever in "running" status; and concretely,
[1, 5, 3] enqueued behind a busy task executes [busy, 5, 3, 1].  A task
enqueued into an idle queue starts immediately instead. -/
theorem c6_queue_order :
    (∀ (c : TaskQueue.Task) (ts : List TaskQueue.Task),
       TaskQueue.runQ ⟨[], some c, []⟩
           (ts.map TaskQueue.QEvent.enq ++
            List.replicate (ts.length + 1) TaskQueue.QEvent.finish) =
         ⟨[], none,
          TaskQueue.terminalize c ::
            (stableSortBy TaskQueue.taskLt (ts.map TaskQueue.markQueued)).map
              (fun u => TaskQueue.terminalize (TaskQueue.markRunning u))⟩) ∧
    (∀ ts : List TaskQueue.Task,
       List.Pairwise (fun a b => b.priority ≤ a.priority)
         (stableSortBy TaskQueue.taskLt ts)) ∧
    (∀ (ts : List TaskQueue.Task) (p : Int),
       (stableSortBy TaskQueue.taskLt ts).filter (fun u => u.priority == p) =
         ts.filter (fun u => u.priority == p)) ∧
    (∀ evs : List TaskQueue.QEvent,
       TaskQueue.runningCount (TaskQueue.runQ TaskQueue.initQ evs) ≤ 1) ∧
    (TaskQueue.runQ ⟨[], some busyTask, []⟩
        ([taskP1, taskP5, taskP3].map TaskQueue.QEvent.enq ++
         List.replicate 4 TaskQueue.QEvent.finish)).executed.map TaskQueue.Task.name =
      ["busy", "t5", "t3", "t1"] := by
  refine ⟨?_, pairwise_stableSortBy, sort_filter_stable, ?_, by decide⟩
  · intro c ts
    rw [TaskQueue.runQ, List.foldl_append]
    have h1 : TaskQueue.runQ ⟨[], some c, []⟩ (ts.map TaskQueue.QEvent.enq) =
        ⟨stableSortBy TaskQueue.taskLt ([] ++ ts.map TaskQueue.markQueued), some c, []⟩ :=
      enq_fold_busy ts [] c []
    rw [List.nil_append] at h1
    rw [TaskQueue.runQ] at h1
    rw [h1]
    have hlen : ts.length + 1 =
        (stableSortBy TaskQueue.taskLt (ts.map TaskQueue.markQueued)).length + 1 := by
      rw [length_stableSortBy, List.length_map]
    rw [hlen]
    have h2 := drain (stableSortBy TaskQueue.taskLt (ts.map TaskQueue.markQueued)) c []
    rw [TaskQueue.runQ] at h2
    rw [h2, List.nil_append]
  · intro evs
    exact running_le_one _ (runQ_inv evs _ qinv_init)

/-- C7.  Task step failure: executing an action list whose (k+1)-st step
throws message `m` invokes exactly the first k+1 steps (nothing after the
throw) and captures `m`; the finished task is archived as "failed" with
`error = m`; the queue advances — the next queued task immediately becomes
the running one (the gateway transition is total, it does not crash); and
the concrete 3-step task whose 2nd action throws ends failed with the
non-empty message "step 2 exploded" and its 3rd action never invoked. -/
theorem c7_task_failure :
    (∀ (k : Nat) (post : List (Except String Unit)) (m : String),
       TaskQueue.executeTrace
           (List.replicate k (Except.ok ()) ++ Except.error m :: post) =
         (k + 1, some m)) ∧
    (∀ (t : TaskQueue.Task) (k : Nat) (post : List (Except String Unit)) (m : String),
       t.actions = List.replicate k (Except.ok ()) ++ Except.error m :: post →
       TaskQueue.terminalize t =
         { t with status := TaskQueue.TStatus.failed, error := some m }) ∧
    (∀ (t t2 : TaskQueue.Task) (q e : List TaskQueue.Task),
       TaskQueue.finishCurrent ⟨t2 :: q, some t, e⟩ =
         ⟨q, some (TaskQueue.markRunning t2), e ++ [TaskQueue.terminalize t]⟩) ∧
    (TaskQueue.executeTrace failingTask.actions = (2, some "step 2 exploded") ∧
     TaskQueue.terminalize failingTask =
       { failingTask with status := TaskQueue.TStatus.failed,
                          error := some "step 2 exploded" } ∧
     "step 2 exploded" ≠ "") := by
  refine ⟨fun k post m => executeTrace_fail m k post, ?_, ?_, by decide, by decide, by decide⟩
  · intro t k post m h
    simp only [TaskQueue.terminalize, h, executeTrace_fail]
  · intro t t2 q e
    simp [TaskQueue.finishCurrent, TaskQueue.startNext]

/-- Witness for C7 at a concrete input. -/
theorem c7_task_failure_witness :
    TaskQueue.terminalize failingTask =
      { failingTask with status := TaskQueue.TStatus.failed,
                         error := some "step 2 exploded" } :=
  c7_task_failure.2.1 failingTask 1 [Except.ok ()] "step 2 exploded" (by decide)

/-- C8 counterexample: the persisted Session carries no stats, so the state
rebuilt from a saved session does not reproduce the stats — they restart at
zero. -/
theorem c8_counterexample :
    (Gateway.startupState (some (Gateway.saveSession gwEx)) 2000
        "2025-01-02T00:00:00.000Z").stats ≠ gwEx.stats := by
  decide

/-- C8 (amended).  Session persistence round-trip: the persisted Session is
exactly `{id, startedAt, learnedPositions, preferences}` and reloading it
reproduces that record identically (in particular the pattern→position
mappings); a default Session is constructed when no record exists; stats are
not persisted — every startup reinitializes them. -/
theorem c8_session_roundtrip :
    (∀ (g : Gateway.GatewayState) (nowMs : Int) (nowIso : String),
       (Gateway.startupState (some (Gateway.saveSession g)) nowMs nowIso).session =
         g.session) ∧
    (∀ (nowMs : Int) (nowIso : String),
       Gateway.startupState none nowMs nowIso =
         ⟨Gateway.defaultSession nowMs nowIso, Gateway.initStats nowMs⟩) ∧
    (∀ (stored : Option Gateway.Session) (nowMs : Int) (nowIso : String),
       (Gateway.startupState stored nowMs nowIso).stats = Gateway.initStats nowMs) :=
  ⟨fun _ _ _ => rfl, fun _ _ => rfl, fun stored _ _ => by cases stored <;> rfl⟩

/-- C9 counterexample: a pure observation cycle (`see`) that merely sights
"Continue" rewrites `session.learnedPositions`, so learned positions are not
written only by successful clicks. -/
theorem c9_counterexample :
    (Gateway.handleSee cFindSee gwEx
        "2025-01-02T00:00:00.000Z").session.learnedPositions ≠
      gwEx.session.learnedPositions := by
  decide

/-- C9 (amended).  `learnedPositions` is written both by successful
click-by-text (which stores the clicked live position) and by observation
cycles that sight a watched pattern (which store the sighted position); a
failed click-by-text — no live match and no learned entry — leaves the state
unchanged. -/
theorem c9_learned_updates :
    (∀ (find : String → List Pt) (g : Gateway.GatewayState) (nowIso : String)
       (t : Pt) (ts : List Pt),
       find "Continue" = t :: ts →
       getA (Gateway.handleSee find g nowIso).session.learnedPositions "Continue" =
         some ⟨t.x, t.y, nowIso⟩) ∧
    (∀ (g : Gateway.GatewayState) (text : String) (nowIso : String),
       getA g.session.learnedPositions text = none →
       Gateway.handleClickOn [] text g nowIso = (Gateway.ClickOnResult.notFound, g)) ∧
    (∀ (g : Gateway.GatewayState) (text : String) (t : Pt) (rest : List Pt)
       (nowIso : String),
       getA ((Gateway.handleClickOn (t :: rest) text g nowIso).2).session.learnedPositions
           text = some ⟨t.x, t.y, nowIso⟩) := by
  refine ⟨?_, ?_, ?_⟩
  · intro find g nowIso t ts hfind
    show getA (Gateway.seeFold find nowIso Gateway.seePatterns
      g.session.learnedPositions) "Continue" = some ⟨t.x, t.y, nowIso⟩
    exact getA_seeFold_sight find nowIso Gateway.seePatterns _ "Continue" t ts
      (by decide) (by decide) hfind
  · intro g text nowIso h
    simp only [Gateway.handleClickOn, h]
  · intro g text t rest nowIso
    show getA (setA g.session.learnedPositions text ⟨t.x, t.y, nowIso⟩) text = _
    exact getA_setA text _ g.session.learnedPositions

/-- Witness for C9 at a concrete input. -/
theorem c9_learned_updates_witness :
    getA (Gateway.handleSee cFindSee gwEx "t").session.learnedPositions "Continue" =
      some ⟨10, 10, "t"⟩ :=
  c9_learned_updates.1 cFindSee gwEx "t" ⟨10, 10⟩ [] (by decide)

/-- C10 counterexample: a cycle in which the pending key is not sighted (no
buttons at all) leaves the pending confirmation record — button key and
accumulated sighting count — fully intact, instead of clearing it. -/
theorem c10_counterexample :
    Ghost.decide Ghost.CONFIG ghostPendingEx [] =
      (Ghost.DAction.wait "No buttons found", ghostPendingEx) ∧
    ghostPendingEx.pendingCount = 1 ∧
    ghostPendingEx.pendingButton ≠ none := by
  decide

/-- C10 (amended).  Pending-confirmation lifecycle: a repeat sighting of the
pending key increments its count; a different chosen key replaces the record
with a fresh count of 1; a committed click clears it; but a cycle that finds
no candidate leaves the pending record (and its accumulated count) unchanged
— absence does not clear it. -/
theorem c10_pending_lifecycle :
    (∀ (st : Ghost.GhostState) (key : String),
       st.pendingButton = some key →
       Ghost.updatePending st key = { st with pendingCount := st.pendingCount + 1 }) ∧
    (∀ (st : Ghost.GhostState) (key : String),
       st.pendingButton ≠ some key →
       Ghost.updatePending st key =
         { st with pendingButton := some key, pendingCount := 1 }) ∧
    (∀ (cfg : Ghost.GhostConfig) (st : Ghost.GhostState) (words : List Ghost.Word)
       (x y : Int) (r : String) (st2 : Ghost.GhostState),
       Ghost.decide cfg st words = (Ghost.DAction.click x y r, st2) →
       st2.pendingButton = none ∧ st2.pendingCount = 0) ∧
    (∀ (cfg : Ghost.GhostConfig) (st : Ghost.GhostState) (words : List Ghost.Word),
       Ghost.findButtons cfg words = [] →
       (Ghost.decide cfg st words).2 = st) := by
  refine ⟨?_, ?_, decide_click_clears, decide_state_of_no_buttons⟩
  · intro st key h
    unfold Ghost.updatePending
    rw [if_pos h]
  · intro st key h
    unfold Ghost.updatePending
    rw [if_neg h]

/-- Witness for C10 at concrete inputs. -/
theorem c10_pending_lifecycle_witness :
    Ghost.updatePending ghostPendingEx "Continue@26x14" =
      { ghostPendingEx with pendingCount := 2 } ∧
    (Ghost.decide Ghost.CONFIG ghostPendingEx []).2 = ghostPendingEx :=
  ⟨c10_pending_lifecycle.1 ghostPendingEx "Continue@26x14" (by decide),
   c10_pending_lifecycle.2.2.2 Ghost.CONFIG ghostPendingEx [] (by decide)⟩
